import Mathlib

/-!
Verification of the file-viewer workspace (React/TypeScript sources) against its
natural-language specification.  The relevant program fragments are shallowly
embedded: pure computations become Lean functions, component state becomes
explicit state records, and the asynchronous/event-driven parts become step
functions over operation lists.  JavaScript strings are modelled by `String`,
string-falsiness (`s || t`) by an explicit helper, JS objects used as
string-keyed dictionaries by association lists with overwrite semantics, and
`URL.createObjectURL` handles by naturals drawn from a counter.
-/

/-! ## JavaScript string primitives

`String.prototype.includes` (substring containment) and
`String.prototype.endsWith`, computed over the character lists so that concrete
instances reduce in the kernel. -/

/-- `charsStartWith s p` : `p` is a prefix of the character list `s`. -/
def charsStartWith : List Char → List Char → Bool
  | _, [] => true
  | [], _ :: _ => false
  | c :: cs, d :: ds => c = d && charsStartWith cs ds

/-- `charsContain s sub` : `sub` occurs as a contiguous sublist of `s`. -/
def charsContain : List Char → List Char → Bool
  | s, sub =>
    charsStartWith s sub ||
      (match s with
       | [] => false
       | _ :: cs => charsContain cs sub)

/-- JS `s.includes(sub)`. -/
def jsIncludes (s sub : String) : Bool := charsContain s.data sub.data

/-- JS `s.endsWith(suf)`. -/
def jsEndsWith (s suf : String) : Bool := charsStartWith s.data.reverse suf.data.reverse

/-- JS `s || t` on strings: the empty string is falsy. -/
def jsOrS (s t : String) : String := if s = "" then t else s

namespace Dispatcher

/-! ## Session Dispatcher — `renderEditor` in `FileViewer.tsx`

The editor-selection branches of `renderEditor` (and the matching structure of
`renderViewer`) map a file's declared MIME type and name to one of four
strategies. -/

/-- The four editing strategies the dispatcher can select. -/
inductive Strategy
  | paginatedDoc
  | grid
  | scene
  | plainText
deriving DecidableEq, Repr

/-- `renderEditor` from `FileViewer.tsx`, branch structure verbatim:
`file.type.includes('pdf')` first; then
`file.type.includes('sheet') || file.type.includes('excel') ||
 file.name.endsWith('.xlsx') || file.name.endsWith('.xls') ||
 file.name.endsWith('.csv')`; then `file.type.includes('image')`;
otherwise the plain-text fallback. -/
def renderEditor (ty nm : String) : Strategy :=
  if jsIncludes ty "pdf" then .paginatedDoc
  else if jsIncludes ty "sheet" || jsIncludes ty "excel" || jsEndsWith nm ".xlsx"
       || jsEndsWith nm ".xls" || jsEndsWith nm ".csv" then .grid
  else if jsIncludes ty "image" then .scene
  else .plainText

/-- Modelled from the spec's words (for comparison, not from the source): a
dispatcher in which every explicit type-string match — paginated, tabular and
image alike — takes priority over the filename-extension fallback. -/
def dispatchClaimed (ty nm : String) : Strategy :=
  if jsIncludes ty "pdf" then .paginatedDoc
  else if jsIncludes ty "sheet" || jsIncludes ty "excel" then .grid
  else if jsIncludes ty "image" then .scene
  else if jsEndsWith nm ".xlsx" || jsEndsWith nm ".xls" || jsEndsWith nm ".csv" then .grid
  else .plainText

end Dispatcher

namespace GridModel

/-! ## Grid Document Model — `ExcelEditor.tsx`

Columns are the `{key, name, editable, resizable}` configuration objects (only
`key` and `name` carry data); a data row is the JS object
`{ id: rowIndex, [columnKey]: cellString, ... }`, modelled as the numeric `id`
plus an association list with JS-object overwrite semantics.  The XLSX byte
layer (`XLSX.read`/`sheet_to_json(header:1)` on load, `aoa_to_sheet`/
`XLSX.write` on save) is external library code and is modelled abstractly as
the identity between the serialized array-of-arrays and the decoded
`jsonData`. -/

/-- One column configuration object (`key`, `name`). -/
structure Column where
  key : String
  name : String
deriving DecidableEq, Repr

/-- JS object assignment `o[k] = v`: overwrite the binding in place if the key
exists, otherwise append it. -/
def objSet : List (String × String) → String → String → List (String × String)
  | [], k, v => [(k, v)]
  | (k', v') :: rest, k, v =>
      if k' = k then (k, v) :: rest else (k', v') :: objSet rest k v

/-- JS object read `o[k]`, with a missing key reading as the empty string
(every read site in the code is wrapped as `o[k] || ''`). -/
def objGet : List (String × String) → String → String
  | [], _ => ""
  | (k', v) :: rest, k => if k' = k then v else objGet rest k

/-- One data row object: the `id` field plus the cell bindings. -/
structure Row where
  id : Nat
  cells : List (String × String)
deriving DecidableEq, Repr

/-- The editor's grid state: `columns` and `data`. -/
structure GridState where
  columns : List Column
  data : List Row
deriving DecidableEq, Repr

/-- `headers.map((header, index) => ({key: header || 'Column${index+1}',
name: header || 'Column ${index+1}', ...}))` from `loadExcelData`, with the
running index made explicit. -/
def mkColsFrom : Nat → List String → List Column
  | _, [] => []
  | i, h :: hs =>
      ⟨jsOrS h ("Column" ++ toString (i + 1)), jsOrS h ("Column " ++ toString (i + 1))⟩ ::
        mkColsFrom (i + 1) hs

/-- The column configurations built from the header row. -/
def mkCols (headers : List String) : List Column := mkColsFrom 0 headers

/-- The key list of the built columns. -/
def colKeys (headers : List String) : List String := (mkCols headers).map (·.key)

/-- `headers.forEach((header, colIndex) =>
rowObj[header || 'Column${colIndex+1}'] = row[colIndex] || '')` from
`loadExcelData`: left-to-right assignments into the row object. -/
def assignCells (raw : List String) : Nat → List String → List (String × String) →
    List (String × String)
  | _, [], o => o
  | i, h :: hs, o =>
      assignCells raw (i + 1) hs
        (objSet o (jsOrS h ("Column" ++ toString (i + 1))) (jsOrS (raw.getD i "") ""))

/-- One parsed data row: `{ id: rowIndex }` then the header-indexed cell
assignments. -/
def buildRow (headers : List String) (rowIndex : Nat) (raw : List String) : Row :=
  ⟨rowIndex, assignCells raw 0 headers []⟩

/-- `rows.map((row, rowIndex) => …)`: all parsed data rows. -/
def buildRows (headers : List String) : Nat → List (List String) → List Row
  | _, [] => []
  | i, raw :: rest => buildRow headers i raw :: buildRows headers (i + 1) rest

/-- `createEmptySpreadsheet`: five default columns `Column N`, ten rows with
the empty string for every column key. -/
def createEmptySpreadsheet : GridState :=
  let defaultColumns := (List.range 5).map (fun i =>
    Column.mk ("Column" ++ toString (i + 1)) ("Column " ++ toString (i + 1)))
  let defaultRows := (List.range 10).map (fun i =>
    Row.mk i (defaultColumns.foldl (fun acc c => objSet acc c.key "") []))
  ⟨defaultColumns, defaultRows⟩

/-- The parsing core of `loadExcelData`.  A failed fetch/decode (`none`, the
`catch` branch) recovers to `createEmptySpreadsheet`; a decoded `jsonData`
with at least one row becomes headers + data rows; an empty `jsonData` leaves
the previous state unchanged (`if (jsonData.length > 0)`). -/
def loadExcelData (prev : GridState) (fetched : Option (List (List String))) : GridState :=
  match fetched with
  | none => createEmptySpreadsheet
  | some [] => prev
  | some (headers :: rows) => ⟨mkCols headers, buildRows headers 0 rows⟩

/-- `addRow`: a new row object with `id: data.length` and the empty string for
every column key, appended to the data. -/
def addRow (g : GridState) : GridState :=
  ⟨g.columns,
   g.data ++ [⟨g.data.length, g.columns.foldl (fun acc c => objSet acc c.key "") []⟩]⟩

/-- `addColumn`: appends the column `Column${columns.length+1}` and maps every
row to `{...row, [newColumnKey]: ''}`. -/
def addColumn (g : GridState) : GridState :=
  let newColumnKey := "Column" ++ toString (g.columns.length + 1)
  ⟨g.columns ++ [⟨newColumnKey, "Column " ++ toString (g.columns.length + 1)⟩],
   g.data.map (fun r => ⟨r.id, objSet r.cells newColumnKey ""⟩)⟩

/-- The serialization core of `handleSave`: `wsData = [columns.map(c=>c.name),
...data.map(row => columns.map(col => row[col.key] || ''))]`. -/
def exportGrid (g : GridState) : List (List String) :=
  (g.columns.map (·.name)) ::
    g.data.map (fun r => g.columns.map (fun c => jsOrS (objGet r.cells c.key) ""))

/-- The grid's header names, in column order. -/
def headerNames (g : GridState) : List String := g.columns.map (·.name)

/-- The grid's cell text, row by row in column order, reading each cell the
way `handleSave` and the data grid do (`row[col.key] || ''`). -/
def cellText (g : GridState) : List (List String) :=
  g.data.map (fun r => g.columns.map (fun c => jsOrS (objGet r.cells c.key) ""))

/-- The target row text of a parsed raw row, starting at column index `i`:
cell `j` is `raw[i+j] || ''`. -/
def normRow (raw : List String) : Nat → Nat → List String
  | _, 0 => []
  | i, n + 1 => jsOrS (raw.getD i "") "" :: normRow raw (i + 1) n

theorem objGet_objSet_self (o : List (String × String)) (k v : String) :
    objGet (objSet o k v) k = v := by
  induction o with
  | nil => simp [objSet, objGet]
  | cons p rest ih =>
    obtain ⟨k', v'⟩ := p
    by_cases hk : k' = k
    · simp [objSet, objGet, hk]
    · simp [objSet, objGet, hk, ih]

theorem objGet_objSet_ne (o : List (String × String)) (k v k' : String) (h : k' ≠ k) :
    objGet (objSet o k v) k' = objGet o k' := by
  induction o with
  | nil => simp [objSet, objGet, Ne.symm h]
  | cons p rest ih =>
    obtain ⟨k₀, v₀⟩ := p
    by_cases hk : k₀ = k
    · subst hk
      simp [objSet, objGet, Ne.symm h]
    · simp [objSet, objGet, hk, ih]

theorem jsOrS_idem (s : String) : jsOrS (jsOrS s "") "" = jsOrS s "" := by
  unfold jsOrS
  by_cases h : s = "" <;> simp [h]

theorem mkColsFrom_length (i : Nat) (hs : List String) :
    (mkColsFrom i hs).length = hs.length := by
  induction hs generalizing i with
  | nil => simp [mkColsFrom]
  | cons h tl ih => simp [mkColsFrom, ih]

theorem mkColsFrom_map_key (hs : List String) (hne : ∀ h ∈ hs, h ≠ "") (i : Nat) :
    (mkColsFrom i hs).map (·.key) = hs := by
  induction hs generalizing i with
  | nil => simp [mkColsFrom]
  | cons h tl ih =>
    have h0 : h ≠ "" := hne h (by simp)
    simp [mkColsFrom, jsOrS, h0, ih (fun x hx => hne x (by simp [hx]))]

theorem mkColsFrom_map_name (hs : List String) (hne : ∀ h ∈ hs, h ≠ "") (i : Nat) :
    (mkColsFrom i hs).map (·.name) = hs := by
  induction hs generalizing i with
  | nil => simp [mkColsFrom]
  | cons h tl ih =>
    have h0 : h ≠ "" := hne h (by simp)
    simp [mkColsFrom, jsOrS, h0, ih (fun x hx => hne x (by simp [hx]))]

theorem assignCells_untouched (raw : List String) (hs : List String) (i : Nat)
    (o : List (String × String)) (k : String)
    (hk : k ∉ (mkColsFrom i hs).map (·.key)) :
    objGet (assignCells raw i hs o) k = objGet o k := by
  induction hs generalizing i o with
  | nil => simp [assignCells]
  | cons h tl ih =>
    simp only [mkColsFrom, List.map_cons, List.mem_cons, not_or] at hk
    rw [assignCells, ih (i + 1) _ hk.2, objGet_objSet_ne _ _ _ _ hk.1]

theorem rowText_normRow (raw : List String) (hs : List String) (i : Nat)
    (o : List (String × String))
    (hnd : ((mkColsFrom i hs).map (·.key)).Nodup) :
    (mkColsFrom i hs).map (fun c => jsOrS (objGet (assignCells raw i hs o) c.key) "") =
      normRow raw i hs.length := by
  induction hs generalizing i o with
  | nil => simp [mkColsFrom, assignCells, normRow]
  | cons h tl ih =>
    simp only [mkColsFrom, List.map_cons, List.nodup_cons] at hnd
    rw [mkColsFrom, List.map_cons, assignCells]
    have hhead : objGet
        (assignCells raw (i + 1) tl
          (objSet o (jsOrS h ("Column" ++ toString (i + 1))) (jsOrS (raw.getD i "") "")))
        (jsOrS h ("Column" ++ toString (i + 1))) = jsOrS (raw.getD i "") "" := by
      rw [assignCells_untouched _ _ _ _ _ hnd.1, objGet_objSet_self]
    rw [hhead, jsOrS_idem, List.length_cons]
    show _ = jsOrS (raw.getD i "") "" :: normRow raw (i + 1) tl.length
    exact congrArg _ (ih (i + 1) _ hnd.2)

theorem assignCells_getD (raw : List String) (hs : List String) (i : Nat)
    (o : List (String × String)) (j : Nat) (hj : j < hs.length)
    (hnd : ((mkColsFrom i hs).map (·.key)).Nodup) :
    objGet (assignCells raw i hs o) (((mkColsFrom i hs).map (·.key)).getD j "") =
      jsOrS (raw.getD (i + j) "") "" := by
  induction hs generalizing i o j with
  | nil => simp at hj
  | cons h tl ih =>
    simp only [mkColsFrom, List.map_cons, List.nodup_cons] at hnd
    match j with
    | 0 =>
      rw [mkColsFrom, List.map_cons, assignCells]
      show objGet _ (jsOrS h ("Column" ++ toString (i + 1))) = _
      rw [assignCells_untouched _ _ _ _ _ hnd.1, objGet_objSet_self]
      simp
    | j' + 1 =>
      rw [mkColsFrom, List.map_cons, assignCells]
      show objGet _ (((mkColsFrom (i + 1) tl).map (·.key)).getD j' "") = _
      rw [ih (i + 1) _ j' (by simp only [List.length_cons] at hj; omega) hnd.2,
        show i + 1 + j' = i + (j' + 1) from by omega]

theorem normRow_shift (x : String) (xs : List String) (i n : Nat) :
    normRow (x :: xs) (i + 1) n = normRow xs i n := by
  induction n generalizing i with
  | zero => simp [normRow]
  | succ m ih => simp [normRow, ih]

theorem normRow_self (raw : List String) (hcl : ∀ s ∈ raw, jsOrS s "" = s) :
    normRow raw 0 raw.length = raw := by
  induction raw with
  | nil => simp [normRow]
  | cons x xs ih =>
    rw [List.length_cons, normRow, normRow_shift,
      ih (fun s hs => hcl s (by simp [hs]))]
    simp [hcl x (by simp)]

theorem buildRows_getD (hs : List String) (rows : List (List String)) (i k : Nat)
    (hk : k < rows.length) :
    (buildRows hs i rows).getD k ⟨0, []⟩ = buildRow hs (i + k) (rows.getD k []) := by
  induction rows generalizing i k with
  | nil => simp at hk
  | cons r rest ih =>
    match k with
    | 0 => simp [buildRows]
    | k' + 1 =>
      rw [buildRows]
      show (buildRows hs (i + 1) rest).getD k' _ = _
      rw [ih (i + 1) k' (by simp only [List.length_cons] at hk; omega)]
      congr 1
      omega

theorem buildRows_cellText (hs : List String) (rows : List (List String)) (i : Nat)
    (hnd : ((mkColsFrom 0 hs).map (·.key)).Nodup) :
    (buildRows hs i rows).map
        (fun r => (mkColsFrom 0 hs).map (fun c => jsOrS (objGet r.cells c.key) "")) =
      rows.map (fun raw => normRow raw 0 hs.length) := by
  induction rows generalizing i with
  | nil => simp [buildRows]
  | cons raw rest ih =>
    simp only [buildRows, List.map_cons, buildRow]
    rw [rowText_normRow raw hs 0 [] hnd, ih (i + 1)]

theorem objSet_empty_vals (o : List (String × String)) (k : String)
    (h : ∀ p ∈ o, p.2 = "") : ∀ p ∈ objSet o k "", p.2 = "" := by
  induction o with
  | nil => simp [objSet]
  | cons q rest ih =>
    obtain ⟨k₀, v₀⟩ := q
    by_cases hk : k₀ = k
    · intro p hp
      simp only [objSet, hk, if_pos rfl] at hp
      rcases List.mem_cons.mp hp with h1 | h1
      · simp [h1]
      · exact h p (List.mem_cons_of_mem _ h1)
    · intro p hp
      simp only [objSet, if_neg hk] at hp
      rcases List.mem_cons.mp hp with h1 | h1
      · rw [h1]; exact h (k₀, v₀) (by simp)
      · exact ih (fun q hq => h q (List.mem_cons_of_mem _ hq)) p h1

theorem objGet_empty_vals (o : List (String × String)) (h : ∀ p ∈ o, p.2 = "")
    (k : String) : objGet o k = "" := by
  induction o with
  | nil => simp [objGet]
  | cons q rest ih =>
    obtain ⟨k₀, v₀⟩ := q
    have hv : v₀ = "" := h (k₀, v₀) (by simp)
    by_cases hk : k₀ = k
    · simp [objGet, hk, hv]
    · simp [objGet, hk, ih (fun q hq => h q (List.mem_cons_of_mem _ hq))]

theorem foldl_objSet_empty_vals (cols : List Column) (o : List (String × String))
    (h : ∀ p ∈ o, p.2 = "") :
    ∀ p ∈ cols.foldl (fun acc c => objSet acc c.key "") o, p.2 = "" := by
  induction cols generalizing o with
  | nil => simpa using h
  | cons c rest ih =>
    simp only [List.foldl_cons]
    exact ih _ (objSet_empty_vals o c.key h)

theorem mkColsFrom_name_getD (hs : List String) (i j : Nat) (hj : j < hs.length) :
    ((mkColsFrom i hs).map (·.name)).getD j "" =
      jsOrS (hs.getD j "") ("Column " ++ toString (i + j + 1)) := by
  induction hs generalizing i j with
  | nil => simp at hj
  | cons h tl ih =>
    match j with
    | 0 => simp [mkColsFrom]
    | j' + 1 =>
      rw [mkColsFrom, List.map_cons]
      show ((mkColsFrom (i + 1) tl).map (·.name)).getD j' "" = _
      rw [ih (i + 1) j' (by simp only [List.length_cons] at hj; omega),
        show i + 1 + j' + 1 = i + (j' + 1) + 1 from by omega]
      rfl

end GridModel

/-! ## Claim theorems (grid model) -/

/-- A grid with two columns that share the display name `X`: the round-trip
counterexample for C2. -/
def gridDupNames : GridModel.GridState :=
  ⟨[⟨"a", "X"⟩, ⟨"b", "X"⟩], [⟨0, [("a", "1"), ("b", "2")]⟩]⟩

/-- A well-formed two-column grid used to witness the amended round-trip law. -/
def gridRt : GridModel.GridState :=
  ⟨[⟨"a", "A"⟩, ⟨"b", "B"⟩], [⟨0, [("a", "1"), ("b", "")]⟩, ⟨1, [("a", ""), ("b", "2")]⟩]⟩

/-- A grid (reachable by parsing a sheet whose first header is literally
`Column3`) on which `addColumn`'s synthesized key collides with an existing
column key: the counterexample for C8. -/
def gridKeyClash : GridModel.GridState :=
  ⟨[⟨"Column3", "Column3"⟩, ⟨"B", "B"⟩], [⟨0, [("Column3", "x"), ("B", "y")]⟩]⟩

/-- C2, counterexample: for the grid `gridDupNames`, whose two columns share
the display name `X` and whose single row is `["1", "2"]`, the round trip
`parse(export(d))` yields the row `["2", "2"]`: both parsed columns read the
cell of the later duplicate, so `parse(export(d)) = d` fails on cell text. -/
theorem C2_counterexample :
    GridModel.cellText gridDupNames = [["1", "2"]] ∧
    GridModel.headerNames (GridModel.loadExcelData GridModel.createEmptySpreadsheet
      (some (GridModel.exportGrid gridDupNames))) = GridModel.headerNames gridDupNames ∧
    GridModel.cellText (GridModel.loadExcelData GridModel.createEmptySpreadsheet
      (some (GridModel.exportGrid gridDupNames))) = [["2", "2"]] ∧
    GridModel.cellText (GridModel.loadExcelData GridModel.createEmptySpreadsheet
      (some (GridModel.exportGrid gridDupNames))) ≠ GridModel.cellText gridDupNames := by
  refine ⟨by decide, by decide, by decide, by decide⟩

/-- C2 (amended): for every grid of plain string values whose column display
names are nonempty and pairwise distinct, `parse(export(d))` reproduces `d`'s
header names and cell text.  (With a duplicated or empty display name the law
fails, see the counterexample.) -/
theorem C2_grid_round_trip (g prev : GridModel.GridState)
    (hne : ∀ c ∈ g.columns, c.name ≠ "")
    (hnd : (g.columns.map (·.name)).Nodup) :
    GridModel.headerNames (GridModel.loadExcelData prev (some (GridModel.exportGrid g))) =
      GridModel.headerNames g ∧
    GridModel.cellText (GridModel.loadExcelData prev (some (GridModel.exportGrid g))) =
      GridModel.cellText g := by
  have hne' : ∀ h ∈ g.columns.map (·.name), h ≠ "" := by
    intro h hh
    rcases List.mem_map.mp hh with ⟨c, hc, rfl⟩
    exact hne c hc
  have hkeys : ((GridModel.mkColsFrom 0 (g.columns.map (·.name))).map (·.key)) =
      g.columns.map (·.name) := GridModel.mkColsFrom_map_key _ hne' 0
  have hkeysnd : ((GridModel.mkColsFrom 0 (g.columns.map (·.name))).map (·.key)).Nodup := by
    rw [hkeys]; exact hnd
  constructor
  · show (GridModel.mkCols (g.columns.map (·.name))).map (·.name) = _
    rw [GridModel.mkCols, GridModel.mkColsFrom_map_name _ hne' 0, GridModel.headerNames]
  · show (GridModel.buildRows (g.columns.map (·.name)) 0
        (g.data.map fun r => g.columns.map fun c => jsOrS (GridModel.objGet r.cells c.key) "")).map
        (fun r => (GridModel.mkColsFrom 0 (g.columns.map (·.name))).map
          (fun c => jsOrS (GridModel.objGet r.cells c.key) "")) = _
    rw [GridModel.buildRows_cellText _ _ 0 hkeysnd]
    have hlen : (g.columns.map (·.name)).length = g.columns.length := List.length_map _ _
    rw [GridModel.cellText]
    rw [List.map_map]
    refine List.map_congr_left ?_
    intro r _
    show GridModel.normRow (g.columns.map fun c => jsOrS (GridModel.objGet r.cells c.key) "") 0
        (g.columns.map (·.name)).length = _
    have hlen2 : (g.columns.map (·.name)).length =
        (g.columns.map fun c => jsOrS (GridModel.objGet r.cells c.key) "").length := by
      simp
    rw [hlen2]
    refine GridModel.normRow_self _ ?_
    intro s hs
    rcases List.mem_map.mp hs with ⟨c, _, rfl⟩
    exact GridModel.jsOrS_idem _

/-- C2 witness: the amended round trip at the concrete two-column grid
`gridRt` (distinct nonempty names `A`, `B`, one empty cell). -/
theorem C2_grid_round_trip_witness :
    GridModel.headerNames (GridModel.loadExcelData GridModel.createEmptySpreadsheet
      (some (GridModel.exportGrid gridRt))) = GridModel.headerNames gridRt ∧
    GridModel.cellText (GridModel.loadExcelData GridModel.createEmptySpreadsheet
      (some (GridModel.exportGrid gridRt))) = GridModel.cellText gridRt :=
  C2_grid_round_trip gridRt GridModel.createEmptySpreadsheet (by decide) (by decide)

/-- C7: (i) a failed parse recovers to `createEmptySpreadsheet`, never a crash
(the embedded parse is a total function); (ii) the recovery grid is exactly 5
columns named `Column 1`..`Column 5` and 10 rows of empty cells; (iii) on
success the first decoded row becomes the column headers, with `Column N`
synthesized by 1-indexed position for each unnamed (empty) header; (iv) every
cell of the remaining rows reads back as the raw cell when present and as the
empty string when missing (cell readback stated for pairwise-distinct column
keys, which the JS row object's overwrite semantics requires). -/
theorem C7_parse_recovery_and_backfill :
    (∀ prev, GridModel.loadExcelData prev none = GridModel.createEmptySpreadsheet) ∧
    GridModel.headerNames GridModel.createEmptySpreadsheet =
      ["Column 1", "Column 2", "Column 3", "Column 4", "Column 5"] ∧
    GridModel.cellText GridModel.createEmptySpreadsheet =
      List.replicate 10 (List.replicate 5 "") ∧
    (∀ prev headers rows j, j < headers.length →
      (GridModel.headerNames
          (GridModel.loadExcelData prev (some (headers :: rows)))).getD j "" =
        jsOrS (headers.getD j "") ("Column " ++ toString (j + 1))) ∧
    (∀ prev headers rows i j, i < rows.length → j < headers.length →
      (GridModel.colKeys headers).Nodup →
      GridModel.objGet
          (((GridModel.loadExcelData prev (some (headers :: rows))).data.getD i ⟨0, []⟩).cells)
          ((GridModel.colKeys headers).getD j "") =
        jsOrS ((rows.getD i []).getD j "") "") := by
  refine ⟨fun prev => rfl, by decide, by decide, ?_, ?_⟩
  · intro prev headers rows j hj
    show ((GridModel.mkColsFrom 0 headers).map (·.name)).getD j "" = _
    rw [GridModel.mkColsFrom_name_getD headers 0 j hj, Nat.zero_add]
  · intro prev headers rows i j hi hj hnd
    show GridModel.objGet
        (((GridModel.buildRows headers 0 rows).getD i ⟨0, []⟩).cells) _ = _
    rw [GridModel.buildRows_getD headers rows 0 i hi]
    show GridModel.objGet (GridModel.assignCells (rows.getD i []) 0 headers [])
        (((GridModel.mkColsFrom 0 headers).map (·.key)).getD j "") = _
    rw [GridModel.assignCells_getD (rows.getD i []) headers 0 [] j hj hnd, Nat.zero_add]

/-- C7 witness: parsing `[["Name", ""], ["alice"]]` — the second header is
unnamed and becomes `Column 2`, and the single data row is missing its second
cell, which reads back as the empty string; and the failure recovery evaluated
concretely. -/
theorem C7_parse_recovery_and_backfill_witness :
    GridModel.loadExcelData GridModel.createEmptySpreadsheet none =
      GridModel.createEmptySpreadsheet ∧
    (GridModel.headerNames (GridModel.loadExcelData GridModel.createEmptySpreadsheet
        (some (["Name", ""] :: [["alice"]])))).getD 1 "" =
      jsOrS (["Name", ""].getD 1 "") ("Column " ++ toString (1 + 1)) ∧
    GridModel.objGet
        (((GridModel.loadExcelData GridModel.createEmptySpreadsheet
            (some (["Name", ""] :: [["alice"]]))).data.getD 0 ⟨0, []⟩).cells)
        ((GridModel.colKeys ["Name", ""]).getD 1 "") =
      jsOrS (([["alice"]].getD 0 []).getD 1 "") "" :=
  ⟨C7_parse_recovery_and_backfill.1 GridModel.createEmptySpreadsheet,
   C7_parse_recovery_and_backfill.2.2.2.1 GridModel.createEmptySpreadsheet
     ["Name", ""] [["alice"]] 1 (by decide),
   C7_parse_recovery_and_backfill.2.2.2.2 GridModel.createEmptySpreadsheet
     ["Name", ""] [["alice"]] 0 1 (by decide) (by decide) (by decide)⟩

/-- C8, counterexample: on the grid `gridKeyClash`, which has a column keyed
`Column3` among its two columns, `addColumn` synthesizes the colliding key
`Column3` again and its backfill overwrites the existing column's cells: the
cell that read `x` reads the empty string afterwards, so "neither operation
ever changes any existing cell value" is false. -/
theorem C8_counterexample :
    GridModel.cellText gridKeyClash = [["x", "y"]] ∧
    GridModel.cellText (GridModel.addColumn gridKeyClash) = [["", "y", ""]] := by
  refine ⟨by decide, by decide⟩

/-- C8 (amended): `addRow` unconditionally appends a row with the empty string
for every existing column and changes no existing cell; and *provided* the
synthesized key `Column{n+1}` and name `Column {n+1}` do not collide with an
existing column key/name (the collision case is the counterexample),
`addColumn` appends a column whose name is not among the existing names and
backfills the empty string into every existing row without changing any
existing cell value. -/
theorem C8_add_row_column (g : GridModel.GridState)
    (hkey : ∀ c ∈ g.columns, c.key ≠ "Column" ++ toString (g.columns.length + 1))
    (hname : ∀ c ∈ g.columns, c.name ≠ "Column " ++ toString (g.columns.length + 1)) :
    (GridModel.addRow g).columns = g.columns ∧
    GridModel.cellText (GridModel.addRow g) =
      GridModel.cellText g ++ [List.replicate g.columns.length ""] ∧
    (GridModel.addColumn g).columns.map (·.name) =
      g.columns.map (·.name) ++ ["Column " ++ toString (g.columns.length + 1)] ∧
    ("Column " ++ toString (g.columns.length + 1)) ∉ g.columns.map (·.name) ∧
    GridModel.cellText (GridModel.addColumn g) =
      (GridModel.cellText g).map (fun r => r ++ [""]) := by
  refine ⟨rfl, ?_, by simp [GridModel.addColumn], ?_, ?_⟩
  · show (g.data ++ [_]).map _ = _
    rw [List.map_append]
    refine congrArg _ ?_
    simp only [List.map_cons, List.map_nil]
    refine congrArg (· :: []) ?_
    have hempty : ∀ k, GridModel.objGet
        (g.columns.foldl (fun acc c => GridModel.objSet acc c.key "") []) k = "" := by
      intro k
      exact GridModel.objGet_empty_vals _
        (GridModel.foldl_objSet_empty_vals g.columns [] (by simp)) k
    calc g.columns.map (fun c => jsOrS (GridModel.objGet
            (g.columns.foldl (fun acc c => GridModel.objSet acc c.key "") []) c.key) "")
        = g.columns.map (fun _ => "") := by
          refine List.map_congr_left ?_
          intro c _
          rw [hempty c.key]
          rfl
      _ = List.replicate g.columns.length "" := by
          simp [List.map_const']
  · intro hmem
    rcases List.mem_map.mp hmem with ⟨c, hc, hcname⟩
    exact hname c hc hcname
  · unfold GridModel.cellText GridModel.addColumn
    rw [List.map_map, List.map_map]
    refine List.map_congr_left ?_
    intro r _
    simp only [Function.comp_apply]
    rw [List.map_append]
    refine congrArg₂ (· ++ ·) ?_ ?_
    · refine List.map_congr_left ?_
      intro c hc
      rw [GridModel.objGet_objSet_ne _ _ _ _ (hkey c hc)]
    · simp only [List.map_cons, List.map_nil]
      rw [GridModel.objGet_objSet_self]
      rfl

/-- A small well-formed grid (columns `A`, `B`) used to witness C8. -/
def gridW8 : GridModel.GridState :=
  ⟨[⟨"a", "A"⟩, ⟨"b", "B"⟩], [⟨0, [("a", "1"), ("b", "2")]⟩]⟩

/-- C8 witness: the amended add-row/add-column behaviour at the concrete grid
`gridW8`. -/
theorem C8_add_row_column_witness :
    (GridModel.addRow gridW8).columns = gridW8.columns ∧
    GridModel.cellText (GridModel.addRow gridW8) =
      GridModel.cellText gridW8 ++ [List.replicate gridW8.columns.length ""] ∧
    (GridModel.addColumn gridW8).columns.map (·.name) =
      gridW8.columns.map (·.name) ++ ["Column " ++ toString (gridW8.columns.length + 1)] ∧
    ("Column " ++ toString (gridW8.columns.length + 1)) ∉ gridW8.columns.map (·.name) ∧
    GridModel.cellText (GridModel.addColumn gridW8) =
      (GridModel.cellText gridW8).map (fun r => r ++ [""]) :=
  C8_add_row_column gridW8 (by decide) (by decide)

namespace PdfModel

/-! ## Paginated-document coordinate mapping

`handleCanvasClick` converts a screen point (relative to the canvas's top-left
corner) to page space; `renderAnnotations` converts page space back to screen
pixels.  `renderPage` sets `canvas.height = viewport.height`, so both use the
same height `h`.  Numbers are modelled by `ℚ`. -/

/-- The page-space point produced by `handleCanvasClick` from the screen point
`(sx, sy)` (already offset by the canvas bounding rectangle):
`x = sx / scale`, `y = (canvas.height - sy) / scale`. -/
def handleCanvasClickPoint (scale h sx sy : ℚ) : ℚ × ℚ :=
  (sx / scale, (h - sy) / scale)

/-- The screen pixel at which `renderAnnotations` paints the page-space point
`(x, y)`: `x·scale` and `viewport.height − y·scale`. -/
def renderAnnotationPoint (scale h x y : ℚ) : ℚ × ℚ :=
  (x * scale, h - y * scale)

/-- The three annotation tools of `PDFEditor`. -/
inductive Tool
  | text
  | rectangle
  | circle
deriving DecidableEq, Repr

/-- One `Annotation` record: id, type, page-space coordinates, optional
width/height/text, color. -/
structure Annotation where
  aid : String
  tool : Tool
  x : ℚ
  y : ℚ
  width : Option ℚ
  height : Option ℚ
  text : Option String
  color : String
deriving DecidableEq, Repr

/-- JS `v || d` on an optional number: `undefined` and `0` are falsy. -/
def jsOrQ (v : Option ℚ) (d : ℚ) : ℚ :=
  match v with
  | none => d
  | some x => if x = 0 then d else x

/-- The annotation built by `handleCanvasClick` from a click at screen point
`(cx, cy)` (relative to the canvas rectangle) with canvas height `h`:
`x = (clientX - rect.left) / scale`, `y = (canvas.height - (clientY -
rect.top)) / scale`; a text tool gets `text: 'New Text'`, the other tools get
`width: 100, height: 50`; color `#ff0000`. -/
def handleCanvasClickAnn (tool : Tool) (scale h cx cy : ℚ) (aid : String) : Annotation :=
  { aid := aid
    tool := tool
    x := cx / scale
    y := (h - cy) / scale
    width := if tool = .text then none else some 100
    height := if tool = .text then none else some 50
    text := if tool = .text then some "New Text" else none
    color := "#ff0000" }

/-- An abstract drawn shape on a structured page, as produced by the pdf-lib
draw calls in `handleSave`. -/
inductive Shape
  | drawnText (s : String) (x y : ℚ)
  | drawnRect (x y w h : ℚ)
  | drawnCircle (x y r : ℚ)
deriving DecidableEq, Repr

/-- The pdf-lib draw call `handleSave` issues for one annotation:
`drawText(text || 'Text', {x, y})`,
`drawRectangle({x, y - (height || 50), width || 100, height || 50})`, or
`drawCircle({x, y, size: width || 25})`. -/
def drawAnnotation (a : Annotation) : Shape :=
  match a.tool with
  | .text => .drawnText (jsOrS (a.text.getD "") "Text") a.x a.y
  | .rectangle => .drawnRect a.x (a.y - jsOrQ a.height 50) (jsOrQ a.width 100) (jsOrQ a.height 50)
  | .circle => .drawnCircle a.x a.y (jsOrQ a.width 25)

/-- The `PDFEditor` component state: `currentPage` (1-indexed), `totalPages`,
the single page-agnostic annotation list, the selected tool, the render
`scale`, and the rasterized canvas preview (abstract). -/
structure PdfState where
  currentPage : Nat
  totalPages : Nat
  annotations : List Annotation
  selectedTool : Tool
  scale : ℚ
  raster : List String
deriving DecidableEq, Repr

/-- The state right after a successful `loadPDF` of an `n`-page document:
`currentPage` reset to 1, no annotations, text tool, `scale` 1.5. -/
def initPdf (n : Nat) : PdfState :=
  { currentPage := 1, totalPages := n, annotations := [], selectedTool := .text,
    scale := 3 / 2, raster := [] }

/-- The user-interface events of `PDFEditor` that matter for export: tool
selection, Previous/Next page (clamped as in the `setCurrentPage` updaters),
a canvas click (with the canvas height at that moment), and a canvas
re-render writing the abstract preview. -/
inductive PdfOp
  | selectTool (t : Tool)
  | prevPage
  | nextPage
  | click (h cx cy : ℚ) (aid : String)
  | render (r : List String)
deriving Repr

/-- One `PDFEditor` state transition. -/
def pdfStep : PdfState → PdfOp → PdfState
  | s, .selectTool t => { s with selectedTool := t }
  | s, .prevPage => { s with currentPage := max 1 (s.currentPage - 1) }
  | s, .nextPage => { s with currentPage := min s.totalPages (s.currentPage + 1) }
  | s, .click h cx cy aid =>
      { s with annotations :=
          s.annotations ++ [handleCanvasClickAnn s.selectedTool s.scale h cx cy aid] }
  | s, .render r => { s with raster := r }

/-- The export core of `handleSave`: the ORIGINAL bytes are re-fetched from
`file.url` and re-parsed into structured pages `orig` (never the canvas
raster); every annotation in the list is drawn onto `pages[currentPage - 1]`
in place; the document is re-serialized.  When `currentPage - 1` is out of
range and at least one annotation must be drawn, the draw call throws and the
`catch` branch produces no bytes (`none`). -/
def exportDocument (orig : List (List Shape)) (s : PdfState) : Option (List (List Shape)) :=
  if s.annotations ≠ [] ∧ orig.length ≤ s.currentPage - 1 then none
  else some (orig.set (s.currentPage - 1)
    (orig.getD (s.currentPage - 1) [] ++ s.annotations.map drawAnnotation))

end PdfModel

theorem getD_set_self {α : Type} (l : List α) (i : Nat) (v d : α) (h : i < l.length) :
    (l.set i v).getD i d = v := by
  induction l generalizing i with
  | nil => simp at h
  | cons a as ih =>
    match i with
    | 0 => rfl
    | i' + 1 =>
      show (as.set i' v).getD i' d = v
      exact ih i' (by simp only [List.length_cons] at h; omega)

theorem getD_set_ne {α : Type} (l : List α) (i j : Nat) (v d : α) (h : i ≠ j) :
    (l.set j v).getD i d = l.getD i d := by
  induction l generalizing i j with
  | nil => simp
  | cons a as ih =>
    match j, i with
    | 0, 0 => exact absurd rfl h
    | 0, i' + 1 => rfl
    | j' + 1, 0 => rfl
    | j' + 1, i' + 1 =>
      show (as.set j' v).getD i' d = as.getD i' d
      exact ih i' j' (fun hh => h (by rw [hh]))

/-- The PDF session state after: load a 2-page document, go to page 2, place
an annotation by clicking at screen point `(15, 30)` on a 90px-tall canvas,
then navigate back to page 1. -/
def pdfTrace1 : PdfModel.PdfState :=
  [PdfModel.PdfOp.nextPage, PdfModel.PdfOp.click 90 15 30 "a1",
   PdfModel.PdfOp.prevPage].foldl PdfModel.pdfStep (PdfModel.initPdf 2)

/-- The PDF session state after a single annotation click on a freshly loaded
one-page document (used to witness the amended C4). -/
def pdfW : PdfModel.PdfState :=
  PdfModel.pdfStep (PdfModel.initPdf 1) (PdfModel.PdfOp.click 60 3 30 "w")

/-- C4, counterexample: the annotation of `pdfTrace1` was placed while page 2
was active; after navigating back to page 1, export of a 2-page document
draws that annotation onto page 1 (index 0).  The annotation placed on
another page before navigating away IS persisted in the exported document —
just on the save-time page — so "not persisted" is false. -/
theorem C4_counterexample :
    ([PdfModel.PdfOp.nextPage].foldl PdfModel.pdfStep (PdfModel.initPdf 2)).currentPage = 2 ∧
    pdfTrace1.currentPage = 1 ∧
    pdfTrace1.annotations =
      [PdfModel.handleCanvasClickAnn PdfModel.Tool.text (3 / 2) 90 15 30 "a1"] ∧
    PdfModel.exportDocument [[], []] pdfTrace1 =
      some [[PdfModel.Shape.drawnText "New Text" 10 40], []] := by
  refine ⟨by decide, by decide, rfl, ?_⟩
  show some ([[], []].set 0 ([] ++ _)) = _
  simp only [List.set, List.nil_append, Option.some.injEq]
  refine congrArg₂ (· :: ·) (congrArg (· :: []) ?_) rfl
  show PdfModel.Shape.drawnText _ _ _ = _
  norm_num [PdfModel.handleCanvasClickAnn, PdfModel.pdfStep, PdfModel.initPdf, jsOrS]
  decide

/-- C4 (amended): `exportDocument` operates on the re-parsed ORIGINAL bytes
and is unaffected by the rasterized preview; it draws every annotation in the
list onto the page at index `currentPage − 1` and leaves every other page
unchanged.  Because the annotation list is page-agnostic, annotations placed
while other pages were active are persisted too — drawn onto the page active
at save time rather than dropped. -/
theorem C4_export_draws_on_current_page (orig : List (List PdfModel.Shape))
    (s : PdfModel.PdfState) (r : List String)
    (hpage : s.currentPage - 1 < orig.length) :
    PdfModel.exportDocument orig { s with raster := r } =
      PdfModel.exportDocument orig s ∧
    ∃ out, PdfModel.exportDocument orig s = some out ∧
      out.length = orig.length ∧
      (∀ i, i ≠ s.currentPage - 1 → out.getD i [] = orig.getD i []) ∧
      out.getD (s.currentPage - 1) [] =
        orig.getD (s.currentPage - 1) [] ++ s.annotations.map PdfModel.drawAnnotation := by
  refine ⟨rfl, orig.set (s.currentPage - 1)
    (orig.getD (s.currentPage - 1) [] ++ s.annotations.map PdfModel.drawAnnotation),
    ?_, ?_, ?_, ?_⟩
  · unfold PdfModel.exportDocument
    rw [if_neg (by push_neg; intro _; omega)]
  · simp
  · intro i hi
    exact getD_set_ne _ _ _ _ _ hi
  · exact getD_set_self _ _ _ _ hpage

/-- C4 witness: the amended export behaviour at the one-page document `[[]]`
with the single-annotation session `pdfW` and an arbitrary preview raster. -/
theorem C4_export_draws_on_current_page_witness :
    PdfModel.exportDocument [[]] { pdfW with raster := ["png"] } =
      PdfModel.exportDocument [[]] pdfW ∧
    ∃ out, PdfModel.exportDocument [[]] pdfW = some out ∧
      out.length = [([] : List PdfModel.Shape)].length ∧
      (∀ i, i ≠ pdfW.currentPage - 1 →
        out.getD i [] = [([] : List PdfModel.Shape)].getD i []) ∧
      out.getD (pdfW.currentPage - 1) [] =
        [([] : List PdfModel.Shape)].getD (pdfW.currentPage - 1) [] ++
          pdfW.annotations.map PdfModel.drawAnnotation :=
  C4_export_draws_on_current_page [[]] pdfW ["png"] (by decide)

namespace SceneModel

/-! ## Raster Scene Model — `ImageEditor.tsx`

The fabric canvas objects, abstracted to what the background-survival
invariant needs: an object identity, the `selectable` flag, and whether the
object is the background image.  `fabric.Image.fromURL` sets
`selectable: false` on the background and `sendToBack` puts it at index 0;
`addText`/`addRectangle`/`addCircle` append a selectable object and make it
the sole active object; free drawing appends selectable path objects; the
user's selection (including select-all) can only ever contain objects with
`selectable: true` — fabric skips non-selectable objects in both click and
group selection; `deleteSelected` removes `canvas.getActiveObjects()` and
discards the active selection. -/

/-- One scene object: identity, fabric `selectable` flag, background tag. -/
structure SObj where
  oid : Nat
  selectable : Bool
  isBackground : Bool
deriving DecidableEq, Repr

/-- The canvas state: object list in z-order, active-selection object ids,
an id allocator, and whether the background image has loaded. -/
structure SceneState where
  objects : List SObj
  active : List Nat
  nextOid : Nat
  bgLoaded : Bool
deriving DecidableEq, Repr

/-- The freshly constructed canvas: no objects, nothing active. -/
def initScene : SceneState := ⟨[], [], 0, false⟩

/-- The scene operations relevant to the background invariant. -/
inductive SOp
  | loadImage
  | addObject
  | brushStroke
  | setSelection (ids : List Nat)
  | deleteSelected
deriving Repr

/-- One scene transition.  `loadImage` is the `fabric.Image.fromURL` callback
(`selectable: false`, `add` + `sendToBack`, fires once per canvas);
`addObject` covers `addText`/`addRectangle`/`addCircle` (append +
`setActiveObject`); `brushStroke` appends a path from free drawing;
`setSelection` is any user selection, restricted — as fabric restricts it —
to objects with `selectable: true`; `deleteSelected` removes the active
objects and discards the selection. -/
def sceneStep : SceneState → SOp → SceneState
  | s, .loadImage =>
      if s.bgLoaded then s
      else
        { objects := ⟨s.nextOid, false, true⟩ :: s.objects,
          active := s.active, nextOid := s.nextOid + 1, bgLoaded := true }
  | s, .addObject =>
      { objects := s.objects ++ [⟨s.nextOid, true, false⟩],
        active := [s.nextOid], nextOid := s.nextOid + 1, bgLoaded := s.bgLoaded }
  | s, .brushStroke =>
      { objects := s.objects ++ [⟨s.nextOid, true, false⟩],
        active := s.active, nextOid := s.nextOid + 1, bgLoaded := s.bgLoaded }
  | s, .setSelection ids =>
      { s with active := ids.filter (fun i =>
          decide (i ∈ (s.objects.filter (fun o => o.selectable)).map (·.oid))) }
  | s, .deleteSelected =>
      { s with objects := s.objects.filter (fun o => decide (o.oid ∉ s.active)),
               active := [] }

/-- A scene session from the fresh canvas. -/
def sceneRun (ops : List SOp) : SceneState := ops.foldl sceneStep initScene

/-- The scene invariant: object ids are fresh and distinct; once the
background has loaded it sits at index 0, tagged and non-selectable; the
active selection only references selectable objects. -/
def SceneInv (s : SceneState) : Prop :=
  (∀ o ∈ s.objects, o.oid < s.nextOid) ∧
  (s.objects.map (·.oid)).Nodup ∧
  (s.bgLoaded = true → ∃ bg rest, s.objects = bg :: rest ∧
    bg.isBackground = true ∧ bg.selectable = false) ∧
  (∀ i ∈ s.active, ∃ o ∈ s.objects, o.oid = i ∧ o.selectable = true)

theorem sceneStep_inv (s : SceneState) (op : SOp) (h : SceneInv s) :
    SceneInv (sceneStep s op) := by
  obtain ⟨h1, h2, h3, h4⟩ := h
  cases op with
  | loadImage =>
    by_cases hb : s.bgLoaded
    · simp only [sceneStep, hb, if_true]
      exact ⟨h1, h2, h3, h4⟩
    · simp only [sceneStep, hb, if_false, Bool.false_eq_true]
      refine ⟨?_, ?_, ?_, ?_⟩
      · intro o ho
        rcases List.mem_cons.mp ho with rfl | ho'
        · exact Nat.lt_succ_self _
        · exact Nat.lt_succ_of_lt (h1 o ho')
      · refine List.nodup_cons.mpr ⟨?_, h2⟩
        intro hmem
        rcases List.mem_map.mp hmem with ⟨o, ho, hoid⟩
        exact absurd hoid (Nat.ne_of_lt (h1 o ho))
      · intro _
        exact ⟨⟨s.nextOid, false, true⟩, s.objects, rfl, rfl, rfl⟩
      · intro i hi
        obtain ⟨o, ho, rest⟩ := h4 i hi
        exact ⟨o, List.mem_cons_of_mem _ ho, rest⟩
  | addObject =>
    simp only [sceneStep]
    refine ⟨?_, ?_, ?_, ?_⟩
    · intro o ho
      rcases List.mem_append.mp ho with ho' | ho'
      · exact Nat.lt_succ_of_lt (h1 o ho')
      · simp only [List.mem_singleton] at ho'
        subst ho'
        exact Nat.lt_succ_self _
    · rw [List.map_append]
      refine List.Nodup.append h2 (List.nodup_singleton _) ?_
      intro a ha hb
      simp only [List.map_cons, List.map_nil, List.mem_singleton] at hb
      subst hb
      rcases List.mem_map.mp ha with ⟨o, ho, hoid⟩
      exact absurd hoid (Nat.ne_of_lt (h1 o ho))
    · intro hb
      obtain ⟨bg, rest, hobj, hbg, hsel⟩ := h3 hb
      exact ⟨bg, rest ++ [⟨s.nextOid, true, false⟩], by rw [hobj]; rfl, hbg, hsel⟩
    · intro i hi
      simp only [List.mem_singleton] at hi
      subst hi
      exact ⟨⟨s.nextOid, true, false⟩, by simp, rfl, rfl⟩
  | brushStroke =>
    simp only [sceneStep]
    refine ⟨?_, ?_, ?_, ?_⟩
    · intro o ho
      rcases List.mem_append.mp ho with ho' | ho'
      · exact Nat.lt_succ_of_lt (h1 o ho')
      · simp only [List.mem_singleton] at ho'
        subst ho'
        exact Nat.lt_succ_self _
    · rw [List.map_append]
      refine List.Nodup.append h2 (List.nodup_singleton _) ?_
      intro a ha hb
      simp only [List.map_cons, List.map_nil, List.mem_singleton] at hb
      subst hb
      rcases List.mem_map.mp ha with ⟨o, ho, hoid⟩
      exact absurd hoid (Nat.ne_of_lt (h1 o ho))
    · intro hb
      obtain ⟨bg, rest, hobj, hbg, hsel⟩ := h3 hb
      exact ⟨bg, rest ++ [⟨s.nextOid, true, false⟩], by rw [hobj]; rfl, hbg, hsel⟩
    · intro i hi
      obtain ⟨o, ho, rest⟩ := h4 i hi
      exact ⟨o, List.mem_append_left _ ho, rest⟩
  | setSelection ids =>
    simp only [sceneStep]
    refine ⟨h1, h2, h3, ?_⟩
    intro i hi
    rcases List.mem_filter.mp hi with ⟨_, hdec⟩
    have hmem := of_decide_eq_true hdec
    rcases List.mem_map.mp hmem with ⟨o, ho, hoid⟩
    rcases List.mem_filter.mp ho with ⟨ho', hsel⟩
    exact ⟨o, ho', hoid, hsel⟩
  | deleteSelected =>
    simp only [sceneStep]
    refine ⟨?_, ?_, ?_, ?_⟩
    · intro o ho
      exact h1 o (List.mem_of_mem_filter ho)
    · exact List.Nodup.sublist (List.Sublist.map _ (List.filter_sublist _)) h2
    · intro hb
      obtain ⟨bg, rest, hobj, hbg, hsel⟩ := h3 hb
      have hnotact : bg.oid ∉ s.active := by
        intro hmem
        obtain ⟨o, ho, hoid, hosel⟩ := h4 bg.oid hmem
        have hbgmem : bg ∈ s.objects := by rw [hobj]; exact List.mem_cons_self _ _
        have hobg : o = bg := List.inj_on_of_nodup_map h2 ho hbgmem hoid
        rw [hobg, hsel] at hosel
        exact Bool.noConfusion hosel
      refine ⟨bg, rest.filter (fun o => decide (o.oid ∉ s.active)), ?_, hbg, hsel⟩
      rw [hobj, List.filter_cons_of_pos]
      exact decide_eq_true hnotact
    · intro i hi
      exact absurd hi (List.not_mem_nil i)

theorem sceneFoldl_inv (ops : List SOp) (s : SceneState) (h : SceneInv s) :
    SceneInv (ops.foldl sceneStep s) := by
  induction ops generalizing s with
  | nil => exact h
  | cons op rest ih => exact ih _ (sceneStep_inv s op h)

theorem sceneRun_inv (ops : List SOp) : SceneInv (sceneRun ops) :=
  sceneFoldl_inv ops initScene (by refine ⟨?_, ?_, ?_, ?_⟩ <;> simp [initScene])

end SceneModel

namespace Store

/-! ## Resource Store — `App.tsx`

`handleFileUpload` creates one record per uploaded file with a fresh object
URL; `handleFileDelete` revokes the record's URL, removes the record and
clears the selection if it pointed there; `handleFileUpdate` allocates the new
object URL FIRST (`const newUrl = URL.createObjectURL(updatedFile)`), then
swaps it into the matching record while revoking the old URL, and updates the
`selectedFile` snapshot when the replaced document is the selected one.

Object URLs (`ResourceHandle`s) are modelled as naturals drawn from a counter;
every `URL.createObjectURL` / `URL.revokeObjectURL` call is recorded, in the
code's execution order, as an allocation/release event.  Record ids
(`${Date.now()}-${i}` in the code) are modelled as a fresh monotone counter,
per the data model's "id unique, monotonically assigned". -/

/-- One `UploadedFile` record: id, name, declared type, byte size, current
object URL (the resource handle), cached decoded text. -/
structure FileRec where
  fid : Nat
  name : String
  ftype : String
  size : Nat
  url : Nat
  content : String
deriving DecidableEq, Repr

/-- One resource-handle event: `URL.createObjectURL` / `URL.revokeObjectURL`. -/
inductive REvent
  | alloc (h : Nat)
  | release (h : Nat)
deriving DecidableEq, Repr

/-- The `App` component state: the uploaded-file list, the `selectedFile`
snapshot, the id and URL allocators, and the handle-event trace. -/
structure AppState where
  files : List FileRec
  selected : Option FileRec
  nextId : Nat
  nextUrl : Nat
  events : List REvent
deriving DecidableEq, Repr

/-- The initial `App` state: no files, nothing selected. -/
def initApp : AppState := ⟨[], none, 0, 0, []⟩

/-- The Resource Store operations: upload (create), select, delete, replace
(save from an editor), and closing the viewer. -/
inductive AppOp
  | upload (nm ty : String) (sz : Nat) (ct : String)
  | select (id : Nat)
  | delete (id : Nat)
  | replace (id : Nat) (sz : Nat)
  | closeViewer
deriving Repr

/-- One store transition, mirroring `handleFileUpload` (per file),
`handleFileSelect`, `handleFileDelete`, `handleFileUpdate` and
`handleCloseViewer`.  In `replace` the allocation event precedes the release
event, as `URL.createObjectURL(updatedFile)` runs before the map that revokes
the old URL; in `delete` the release is the URL of the first record found with
the id; an unknown id allocates in `replace` (the code allocates
unconditionally) but releases nothing and changes no record. -/
def step : AppState → AppOp → AppState
  | s, .upload nm ty sz ct =>
      { files := s.files ++ [⟨s.nextId, nm, ty, sz, s.nextUrl, ct⟩]
        selected := s.selected
        nextId := s.nextId + 1
        nextUrl := s.nextUrl + 1
        events := s.events ++ [.alloc s.nextUrl] }
  | s, .select id =>
      match s.files.find? (fun f => f.fid == id) with
      | some f => { s with selected := some f }
      | none => s
  | s, .delete id =>
      { files := s.files.filter (fun f => !(f.fid == id))
        selected := match s.selected with
          | some f => if f.fid == id then none else some f
          | none => none
        nextId := s.nextId
        nextUrl := s.nextUrl
        events := s.events ++
          (match s.files.find? (fun f => f.fid == id) with
           | some f => [REvent.release f.url]
           | none => []) }
  | s, .replace id sz =>
      { files := s.files.map (fun f =>
          if f.fid == id then { f with url := s.nextUrl, size := sz } else f)
        selected := match s.selected with
          | some f =>
              if f.fid == id then some { f with url := s.nextUrl, size := sz } else some f
          | none => none
        nextId := s.nextId
        nextUrl := s.nextUrl + 1
        events := s.events ++ [REvent.alloc s.nextUrl] ++
          (match s.files.find? (fun f => f.fid == id) with
           | some f => [REvent.release f.url]
           | none => []) }
  | s, .closeViewer => { s with selected := none }

/-- A store session from the initial state. -/
def run (ops : List AppOp) : AppState := ops.foldl step initApp

/-- The live-handle list after processing the events from a starting live
list: allocation prepends, release erases. -/
def liveAfter : List Nat → List REvent → List Nat
  | live, [] => live
  | live, .alloc h :: rest => liveAfter (h :: live) rest
  | live, .release h :: rest => liveAfter (live.erase h) rest

/-- Handle discipline over an event trace: every allocation is of a handle
not currently live, and every release is of a currently live handle — so in
particular a release can only follow the allocation of that handle, never
precede it, and never strike a handle twice without an intervening
re-allocation. -/
def WfFrom : List Nat → List REvent → Prop
  | _, [] => True
  | live, .alloc h :: rest => h ∉ live ∧ WfFrom (h :: live) rest
  | live, .release h :: rest => h ∈ live ∧ WfFrom (live.erase h) rest

/-- The handles released over a trace, in release order. -/
def releasedOf (evs : List REvent) : List Nat :=
  evs.filterMap (fun e => match e with | .release h => some h | .alloc _ => none)

theorem liveAfter_append (live : List Nat) (evs evs' : List REvent) :
    liveAfter live (evs ++ evs') = liveAfter (liveAfter live evs) evs' := by
  induction evs generalizing live with
  | nil => rfl
  | cons e rest ih =>
    cases e with
    | alloc h =>
      simp only [List.cons_append, liveAfter]
      exact ih _
    | release h =>
      simp only [List.cons_append, liveAfter]
      exact ih _

theorem wfFrom_append (live : List Nat) (evs evs' : List REvent) :
    WfFrom live (evs ++ evs') ↔ (WfFrom live evs ∧ WfFrom (liveAfter live evs) evs') := by
  induction evs generalizing live with
  | nil => simp [WfFrom, liveAfter]
  | cons e rest ih =>
    cases e with
    | alloc h =>
      simp only [List.cons_append, WfFrom, liveAfter, List.append_eq]
      rw [ih (h :: live)]
      tauto
    | release h =>
      simp only [List.cons_append, WfFrom, liveAfter, List.append_eq]
      rw [ih (live.erase h)]
      tauto

theorem releasedOf_append (evs evs' : List REvent) :
    releasedOf (evs ++ evs') = releasedOf evs ++ releasedOf evs' := by
  simp [releasedOf]

/-- The Resource Store invariant. -/
def Inv (s : AppState) : Prop :=
  (∀ f ∈ s.files, f.fid < s.nextId) ∧
  (s.files.map (·.fid)).Nodup ∧
  (∀ f ∈ s.files, f.url ∈ liveAfter [] s.events) ∧
  (s.files.map (·.url)).Nodup ∧
  WfFrom [] s.events ∧
  (∀ h ∈ liveAfter [] s.events, h < s.nextUrl) ∧
  (liveAfter [] s.events).Nodup ∧
  (∀ h ∈ releasedOf s.events, h < s.nextUrl) ∧
  (releasedOf s.events).Nodup ∧
  (∀ h ∈ liveAfter [] s.events, h ∉ releasedOf s.events) ∧
  (∀ f, s.selected = some f → f ∈ s.files)

theorem liveAfter_single_alloc (live : List Nat) (h : Nat) :
    liveAfter live [REvent.alloc h] = h :: live := rfl

theorem liveAfter_single_release (live : List Nat) (h : Nat) :
    liveAfter live [REvent.release h] = live.erase h := rfl

theorem releasedOf_nil : releasedOf [] = [] := rfl

theorem releasedOf_single_alloc (h : Nat) : releasedOf [REvent.alloc h] = [] := rfl

theorem releasedOf_single_release (h : Nat) : releasedOf [REvent.release h] = [h] := rfl

theorem wfFrom_single_alloc (live : List Nat) (h : Nat) :
    WfFrom live [REvent.alloc h] ↔ h ∉ live := by
  simp [WfFrom]

theorem wfFrom_single_release (live : List Nat) (h : Nat) :
    WfFrom live [REvent.release h] ↔ h ∈ live := by
  simp [WfFrom]

theorem update_urls (l : List FileRec) (id u sz : Nat) :
    ((l.map (fun f => if f.fid == id then { f with url := u, size := sz } else f)).map
      (·.url)) = l.map (fun f => if f.fid == id then u else f.url) := by
  rw [List.map_map]
  refine List.map_congr_left ?_
  intro f _
  by_cases hf : (f.fid == id) = true
  · simp [eq_of_beq hf]
  · have hf' : ¬f.fid = id := fun he => hf (by simp [he])
    simp [hf']

theorem update_fids (l : List FileRec) (id u sz : Nat) :
    ((l.map (fun f => if f.fid == id then { f with url := u, size := sz } else f)).map
      (·.fid)) = l.map (·.fid) := by
  rw [List.map_map]
  refine List.map_congr_left ?_
  intro f _
  by_cases hf : (f.fid == id) = true
  · simp [eq_of_beq hf]
  · have hf' : ¬f.fid = id := fun he => hf (by simp [he])
    simp [hf']

theorem nodup_map_ite_url (l : List FileRec) (id u : Nat)
    (hfid : (l.map (·.fid)).Nodup)
    (hurl : (l.map (·.url)).Nodup)
    (hu : ∀ f ∈ l, f.url ≠ u) :
    (l.map (fun f => if f.fid == id then u else f.url)).Nodup := by
  induction l with
  | nil => simp
  | cons f fs ih =>
    simp only [List.map_cons, List.nodup_cons] at hfid hurl ⊢
    have htail : (fs.map (fun f => if f.fid == id then u else f.url)).Nodup :=
      ih hfid.2 hurl.2 (fun x hx => hu x (List.mem_cons_of_mem _ hx))
    refine ⟨?_, htail⟩
    by_cases hf : (f.fid == id) = true
    · rw [if_pos hf]
      intro hmem
      rcases List.mem_map.mp hmem with ⟨x, hx, hxeq⟩
      by_cases hx2 : (x.fid == id) = true
      · have hxf : x.fid = f.fid := by
          rw [eq_of_beq hx2, eq_of_beq hf]
        exact hfid.1 (hxf ▸ List.mem_map_of_mem (·.fid) hx)
      · rw [if_neg hx2] at hxeq
        exact hu x (List.mem_cons_of_mem _ hx) hxeq
    · rw [if_neg hf]
      intro hmem
      rcases List.mem_map.mp hmem with ⟨x, hx, hxeq⟩
      by_cases hx2 : (x.fid == id) = true
      · rw [if_pos hx2] at hxeq
        exact hu f (List.mem_cons_self _ _) hxeq.symm
      · rw [if_neg hx2] at hxeq
        exact hurl.1 (hxeq ▸ List.mem_map_of_mem (·.url) hx)

theorem step_inv_upload (s : AppState) (h : Inv s) (nm ty : String) (sz : Nat)
    (ct : String) : Inv (step s (.upload nm ty sz ct)) := by
  obtain ⟨A1, A2, A3, A4, A5, A6, A7, A8, A9, A10, A11⟩ := h
  simp only [step, Inv, liveAfter_append, releasedOf_append, wfFrom_append,
    liveAfter_single_alloc, releasedOf_single_alloc, wfFrom_single_alloc, List.append_nil]
  have hunotL : s.nextUrl ∉ liveAfter [] s.events := fun hmem =>
    absurd (A6 _ hmem) (lt_irrefl _)
  refine ⟨?_, ?_, ?_, ?_, ⟨A5, hunotL⟩, ?_, List.nodup_cons.mpr ⟨hunotL, A7⟩, ?_, A9, ?_, ?_⟩
  · intro f hf
    rcases List.mem_append.mp hf with hf' | hf'
    · exact Nat.lt_succ_of_lt (A1 f hf')
    · simp only [List.mem_singleton] at hf'
      subst hf'
      exact Nat.lt_succ_self _
  · rw [List.map_append]
    refine List.Nodup.append A2 (List.nodup_singleton _) ?_
    intro a ha hb
    simp only [List.map_cons, List.map_nil, List.mem_singleton] at hb
    subst hb
    rcases List.mem_map.mp ha with ⟨f, hf, hfid⟩
    exact absurd hfid (Nat.ne_of_lt (A1 f hf))
  · intro f hf
    rcases List.mem_append.mp hf with hf' | hf'
    · exact List.mem_cons_of_mem _ (A3 f hf')
    · simp only [List.mem_singleton] at hf'
      subst hf'
      exact List.mem_cons_self _ _
  · rw [List.map_append]
    refine List.Nodup.append A4 (List.nodup_singleton _) ?_
    intro a ha hb
    simp only [List.map_cons, List.map_nil, List.mem_singleton] at hb
    subst hb
    rcases List.mem_map.mp ha with ⟨f, hf, hfurl⟩
    exact absurd hfurl (Nat.ne_of_lt (A6 _ (hfurl ▸ A3 f hf)))
  · intro x hx
    rcases List.mem_cons.mp hx with rfl | hx'
    · exact Nat.lt_succ_self _
    · exact Nat.lt_succ_of_lt (A6 x hx')
  · intro x hx
    exact Nat.lt_succ_of_lt (A8 x hx)
  · intro x hx
    rcases List.mem_cons.mp hx with rfl | hx'
    · intro hmem
      exact absurd (A8 _ hmem) (lt_irrefl _)
    · exact A10 x hx'
  · intro f hf
    exact List.mem_append_left _ (A11 f hf)

theorem step_inv_select (s : AppState) (h : Inv s) (id : Nat) :
    Inv (step s (.select id)) := by
  obtain ⟨A1, A2, A3, A4, A5, A6, A7, A8, A9, A10, A11⟩ := h
  simp only [step]
  cases hfind : s.files.find? (fun f => f.fid == id) with
  | none => exact ⟨A1, A2, A3, A4, A5, A6, A7, A8, A9, A10, A11⟩
  | some f =>
    refine ⟨A1, A2, A3, A4, A5, A6, A7, A8, A9, A10, ?_⟩
    intro g hg
    have : f = g := Option.some.inj hg
    exact this ▸ List.mem_of_find?_eq_some hfind

theorem step_inv_delete (s : AppState) (h : Inv s) (id : Nat) :
    Inv (step s (.delete id)) := by
  obtain ⟨A1, A2, A3, A4, A5, A6, A7, A8, A9, A10, A11⟩ := h
  simp only [step]
  cases hfind : s.files.find? (fun f => f.fid == id) with
  | none =>
    simp only [Inv, List.append_nil]
    refine ⟨?_, ?_, ?_, ?_, A5, A6, A7, A8, A9, A10, ?_⟩
    · intro f hf
      exact A1 f (List.mem_of_mem_filter hf)
    · exact List.Nodup.sublist (List.Sublist.map _ (List.filter_sublist _)) A2
    · intro f hf
      exact A3 f (List.mem_of_mem_filter hf)
    · exact List.Nodup.sublist (List.Sublist.map _ (List.filter_sublist _)) A4
    · cases hsel : s.selected with
      | none =>
        intro g hg
        exact Option.noConfusion hg
      | some f =>
        intro g hg
        dsimp only at hg
        by_cases hb : (f.fid == id) = true
        · rw [if_pos hb] at hg
          exact Option.noConfusion hg
        · rw [if_neg hb] at hg
          have hfg : f = g := Option.some.inj hg
          subst hfg
          refine List.mem_filter.mpr ⟨A11 f hsel, ?_⟩
          simp only [Bool.not_eq_true']
          exact Bool.eq_false_iff.mpr hb
  | some g =>
    have hgmem := List.mem_of_find?_eq_some hfind
    have pg := List.find?_some hfind
    have hgurlL := A3 g hgmem
    simp only [Inv, liveAfter_append, releasedOf_append, wfFrom_append,
      liveAfter_single_release, releasedOf_single_release, wfFrom_single_release]
    refine ⟨?_, ?_, ?_, ?_, ⟨A5, hgurlL⟩, ?_, List.Nodup.erase _ A7, ?_, ?_, ?_, ?_⟩
    · intro f hf
      exact A1 f (List.mem_of_mem_filter hf)
    · exact List.Nodup.sublist (List.Sublist.map _ (List.filter_sublist _)) A2
    · intro f hf
      have hfmem := List.mem_of_mem_filter hf
      have hpred := List.of_mem_filter hf
      simp only [Bool.not_eq_true'] at hpred
      have hfg : f ≠ g := by
        intro he
        have : (f.fid == id) = true := he ▸ pg
        rw [this] at hpred
        exact Bool.noConfusion hpred
      have hfurl : f.url ≠ g.url := fun he =>
        hfg (List.inj_on_of_nodup_map A4 hfmem hgmem he)
      exact (List.Nodup.mem_erase_iff A7).mpr ⟨hfurl, A3 f hfmem⟩
    · exact List.Nodup.sublist (List.Sublist.map _ (List.filter_sublist _)) A4
    · intro x hx
      exact A6 x (List.mem_of_mem_erase hx)
    · intro x hx
      rcases List.mem_append.mp hx with hx' | hx'
      · exact A8 x hx'
      · simp only [List.mem_singleton] at hx'
        subst hx'
        exact A6 _ hgurlL
    · refine List.Nodup.append A9 (List.nodup_singleton _) ?_
      intro a ha hb
      simp only [List.mem_singleton] at hb
      subst hb
      exact A10 _ hgurlL ha
    · intro x hx hmem
      have hx' := (List.Nodup.mem_erase_iff A7).mp hx
      rcases List.mem_append.mp hmem with hm | hm
      · exact A10 x hx'.2 hm
      · simp only [List.mem_singleton] at hm
        exact hx'.1 hm
    · cases hsel : s.selected with
      | none =>
        intro g' hg'
        exact Option.noConfusion hg'
      | some f =>
        intro g' hg'
        dsimp only at hg'
        by_cases hb : (f.fid == id) = true
        · rw [if_pos hb] at hg'
          exact Option.noConfusion hg'
        · rw [if_neg hb] at hg'
          have hfg : f = g' := Option.some.inj hg'
          subst hfg
          refine List.mem_filter.mpr ⟨A11 f hsel, ?_⟩
          simp only [Bool.not_eq_true']
          exact Bool.eq_false_iff.mpr hb

theorem step_inv_replace (s : AppState) (h : Inv s) (id sz : Nat) :
    Inv (step s (.replace id sz)) := by
  obtain ⟨A1, A2, A3, A4, A5, A6, A7, A8, A9, A10, A11⟩ := h
  have hunotL : s.nextUrl ∉ liveAfter [] s.events := fun hmem =>
    absurd (A6 _ hmem) (lt_irrefl _)
  have hunotR : s.nextUrl ∉ releasedOf s.events := fun hmem =>
    absurd (A8 _ hmem) (lt_irrefl _)
  have hfidupd : ∀ x : FileRec,
      (if x.fid == id then { x with url := s.nextUrl, size := sz } else x).fid = x.fid := by
    intro x
    by_cases hx : (x.fid == id) = true
    · rw [if_pos hx]
    · rw [if_neg hx]
  simp only [step]
  cases hfind : s.files.find? (fun f => f.fid == id) with
  | none =>
    have hforall := List.find?_eq_none.mp hfind
    have hfiles : s.files.map (fun f =>
        if f.fid == id then { f with url := s.nextUrl, size := sz } else f) = s.files :=
      (List.map_congr_left (fun f hf => if_neg (hforall f hf))).trans (List.map_id' s.files)
    simp only [Inv, List.append_nil, liveAfter_append, releasedOf_append, wfFrom_append,
      liveAfter_single_alloc, releasedOf_single_alloc, wfFrom_single_alloc, hfiles]
    refine ⟨A1, A2, ?_, A4, ⟨A5, hunotL⟩, ?_,
      List.nodup_cons.mpr ⟨hunotL, A7⟩, ?_, A9, ?_, ?_⟩
    · intro f hf
      exact List.mem_cons_of_mem _ (A3 f hf)
    · intro x hx
      rcases List.mem_cons.mp hx with rfl | hx'
      · exact Nat.lt_succ_self _
      · exact Nat.lt_succ_of_lt (A6 x hx')
    · intro x hx
      exact Nat.lt_succ_of_lt (A8 x hx)
    · intro x hx
      rcases List.mem_cons.mp hx with rfl | hx'
      · exact hunotR
      · exact A10 x hx'
    · cases hsel : s.selected with
      | none =>
        intro g' hg'
        exact Option.noConfusion hg'
      | some f =>
        intro g' hg'
        dsimp only at hg'
        have hb : ¬(f.fid == id) = true := hforall f (A11 f hsel)
        rw [if_neg hb] at hg'
        have hfg : f = g' := Option.some.inj hg'
        subst hfg
        exact A11 f hsel
  | some g =>
    have hgmem := List.mem_of_find?_eq_some hfind
    have pg := List.find?_some hfind
    have hgurlL := A3 g hgmem
    have hgurllt : g.url < s.nextUrl := A6 _ hgurlL
    have hcons : (s.nextUrl :: liveAfter [] s.events).Nodup :=
      List.nodup_cons.mpr ⟨hunotL, A7⟩
    simp only [Inv, liveAfter_append, releasedOf_append, wfFrom_append,
      liveAfter_single_alloc, liveAfter_single_release, releasedOf_single_alloc,
      releasedOf_single_release, wfFrom_single_alloc, wfFrom_single_release,
      List.append_nil]
    refine ⟨?_, ?_, ?_, ?_, ⟨⟨A5, hunotL⟩, List.mem_cons_of_mem _ hgurlL⟩,
      ?_, List.Nodup.erase _ hcons, ?_, ?_, ?_, ?_⟩
    · intro f' hf'
      rcases List.mem_map.mp hf' with ⟨x, hx, rfl⟩
      rw [hfidupd x]
      exact A1 x hx
    · rw [update_fids]
      exact A2
    · intro f' hf'
      rcases List.mem_map.mp hf' with ⟨x, hx, rfl⟩
      by_cases hxid : (x.fid == id) = true
      · rw [if_pos hxid]
        refine (List.Nodup.mem_erase_iff hcons).mpr ⟨?_, List.mem_cons_self _ _⟩
        exact (Nat.ne_of_lt hgurllt).symm
      · rw [if_neg hxid]
        have hxg : x ≠ g := by
          intro he
          have : (x.fid == id) = true := by rw [he]; exact pg
          exact hxid this
        have hxurl : x.url ≠ g.url := fun he =>
          hxg (List.inj_on_of_nodup_map A4 hx hgmem he)
        exact (List.Nodup.mem_erase_iff hcons).mpr
          ⟨hxurl, List.mem_cons_of_mem _ (A3 x hx)⟩
    · rw [update_urls]
      exact nodup_map_ite_url _ id _ A2 A4 (fun f hf => Nat.ne_of_lt (A6 _ (A3 f hf)))
    · intro x hx
      have hx' := (List.Nodup.mem_erase_iff hcons).mp hx
      rcases List.mem_cons.mp hx'.2 with rfl | hx''
      · exact Nat.lt_succ_self _
      · exact Nat.lt_succ_of_lt (A6 x hx'')
    · intro x hx
      rcases List.mem_append.mp hx with hx' | hx'
      · exact Nat.lt_succ_of_lt (A8 x hx')
      · simp only [List.mem_singleton] at hx'
        subst hx'
        exact Nat.lt_succ_of_lt hgurllt
    · refine List.Nodup.append A9 (List.nodup_singleton _) ?_
      intro a ha hb
      simp only [List.mem_singleton] at hb
      subst hb
      exact A10 _ hgurlL ha
    · intro x hx hmem
      have hx' := (List.Nodup.mem_erase_iff hcons).mp hx
      rcases List.mem_append.mp hmem with hm | hm
      · rcases List.mem_cons.mp hx'.2 with rfl | hx''
        · exact hunotR hm
        · exact A10 x hx'' hm
      · simp only [List.mem_singleton] at hm
        exact hx'.1 hm
    · cases hsel : s.selected with
      | none =>
        intro g' hg'
        exact Option.noConfusion hg'
      | some f =>
        intro g' hg'
        dsimp only at hg'
        by_cases hb : (f.fid == id) = true
        · rw [if_pos hb] at hg'
          have hfg := Option.some.inj hg'
          subst hfg
          exact List.mem_map.mpr ⟨f, A11 f hsel, by rw [if_pos hb]⟩
        · rw [if_neg hb] at hg'
          have hfg : f = g' := Option.some.inj hg'
          subst hfg
          exact List.mem_map.mpr ⟨f, A11 f hsel, by rw [if_neg hb]⟩

theorem step_inv_close (s : AppState) (h : Inv s) :
    Inv (step s .closeViewer) := by
  obtain ⟨A1, A2, A3, A4, A5, A6, A7, A8, A9, A10, A11⟩ := h
  exact ⟨A1, A2, A3, A4, A5, A6, A7, A8, A9, A10, fun g hg => Option.noConfusion hg⟩

theorem step_inv (s : AppState) (op : AppOp) (h : Inv s) : Inv (step s op) := by
  cases op with
  | upload nm ty sz ct => exact step_inv_upload s h nm ty sz ct
  | select id => exact step_inv_select s h id
  | delete id => exact step_inv_delete s h id
  | replace id sz => exact step_inv_replace s h id sz
  | closeViewer => exact step_inv_close s h

theorem foldl_inv (ops : List AppOp) (s : AppState) (h : Inv s) :
    Inv (ops.foldl step s) := by
  induction ops generalizing s with
  | nil => exact h
  | cons op rest ih => exact ih _ (step_inv s op h)

theorem initApp_inv : Inv initApp := by
  refine ⟨?_, ?_, ?_, ?_, ?_, ?_, ?_, ?_, ?_, ?_, ?_⟩ <;>
    simp [initApp, liveAfter, WfFrom, releasedOf]

theorem run_inv (ops : List AppOp) : Inv (run ops) :=
  foldl_inv ops initApp initApp_inv

end Store

namespace Viewer

/-! ## Viewer/Editor Shell — `FileViewer.tsx` (plain-text fallback) -/

/-- The `FileViewer` component state: the edit-mode flag and the textarea's
working content. -/
structure ViewerState where
  isEditing : Bool
  editedContent : String
deriving DecidableEq, Repr

/-- `file.content || ''` of the currently selected record. -/
def contentOfSelected (app : Store.AppState) : String :=
  match app.selected with
  | some f => jsOrS f.content ""
  | none => ""

/-- The viewer events around the plain-text fallback editor: `handleEdit`
(enter edit mode, seed the textarea from `file.content || ''`), typing in the
textarea (`setEditedContent`), the fallback `handleSave` (`console.log`, then
`setIsEditing(false)` — it never calls `onFileUpdate`), and Cancel. -/
inductive VOp
  | editStart
  | typeContent (c : String)
  | saveText
  | cancel
deriving Repr

/-- One viewer transition over the store and viewer state.  Only the viewer
component ever changes; in particular `saveText` leaves the store untouched. -/
def vstep : Store.AppState × ViewerState → VOp → Store.AppState × ViewerState
  | (app, _), .editStart => (app, ⟨true, contentOfSelected app⟩)
  | (app, v), .typeContent c => (app, { v with editedContent := c })
  | (app, v), .saveText => (app, { v with isEditing := false })
  | (app, v), .cancel => (app, { v with isEditing := false })

end Viewer

namespace Stale

/-! ## Asynchronous loads and selection switches

`ExcelEditor` starts `loadExcelData()` from `useEffect(..., [file])`; the
async body fetches `file.url` and then calls `setColumns`/`setData` with no
comparison of the completing load against the currently shown file (the same
pattern holds in `PDFEditor.loadPDF`).  The model keeps the currently selected
file, the grid state, and the queue of in-flight loads; completing a load
applies its decoded payload unconditionally, exactly as the code does. -/

/-- One in-flight load: the file it was started for and the payload its fetch
will eventually deliver (`none` = fetch/decode failure). -/
structure LoadReq where
  fileId : Nat
  payload : Option (List (List String))
deriving DecidableEq, Repr

/-- The editor plus its environment: the selected file, the grid state shown,
and the in-flight loads in start order. -/
structure EditorWorld where
  activeFile : Nat
  grid : GridModel.GridState
  pending : List LoadReq
deriving DecidableEq, Repr

/-- The interleaving events: switching the selection to a file (which makes
the `[file]` effect fire and start a load whose eventual result is `payload`),
and the settling of the `k`-th in-flight load. -/
inductive Ev
  | selectFile (id : Nat) (payload : Option (List (List String)))
  | complete (k : Nat)
deriving Repr

/-- One event transition.  Completion applies `loadExcelData` to whatever grid
is currently shown, with no stale-session check — the code sets state
unconditionally when its `await`s resolve. -/
def staleStep : EditorWorld → Ev → EditorWorld
  | w, .selectFile id payload =>
      { w with activeFile := id, pending := w.pending ++ [⟨id, payload⟩] }
  | w, .complete k =>
      match w.pending.get? k with
      | none => w
      | some req =>
          { activeFile := w.activeFile
            grid := GridModel.loadExcelData w.grid req.payload
            pending := w.pending.eraseIdx k }

/-- The run of the stale-session scenario: select document A (file 0, whose
bytes parse to header `a`), switch to document B (file 1, header `b`) while
A's load is still in flight, let B's load settle, then let A's stale load
settle. -/
def staleScenario : EditorWorld :=
  [Ev.selectFile 0 (some [["a"], ["1"]]), Ev.selectFile 1 (some [["b"], ["2"]]),
   Ev.complete 1, Ev.complete 0].foldl staleStep ⟨0, ⟨[], []⟩, []⟩

end Stale

/-! ## Claim theorems (dispatcher and coordinates) -/

/-- C3, counterexample: for a file with declared type `image/png` but name
ending in `.csv`, the code's dispatcher selects the grid editor, while the
claimed priority (explicit image type-string beats the extension fallback)
would select the scene editor.  So the claim as stated is false. -/
theorem C3_counterexample :
    Dispatcher.renderEditor "image/png" "photo.csv" = Dispatcher.Strategy.grid ∧
    Dispatcher.dispatchClaimed "image/png" "photo.csv" = Dispatcher.Strategy.scene := by
  constructor <;> decide

/-- C3 (amended): the dispatcher is a total pure function into
{PaginatedDoc, Grid, Scene, PlainText}; a `pdf` type-string match takes top
priority, then the tabular type-string match *together with* the
filename-extension fallback (.xlsx/.xls/.csv) — so the extension fallback takes
priority over the `image` type-string match — then the image type-string, and
everything unmatched maps to PlainText. -/
theorem C3_dispatch_priority :
    (∀ ty nm, jsIncludes ty "pdf" = true →
      Dispatcher.renderEditor ty nm = Dispatcher.Strategy.paginatedDoc) ∧
    (∀ ty nm, jsIncludes ty "pdf" = false →
      (jsIncludes ty "sheet" || jsIncludes ty "excel" || jsEndsWith nm ".xlsx"
        || jsEndsWith nm ".xls" || jsEndsWith nm ".csv") = true →
      Dispatcher.renderEditor ty nm = Dispatcher.Strategy.grid) ∧
    (∀ ty nm, jsIncludes ty "pdf" = false →
      (jsIncludes ty "sheet" || jsIncludes ty "excel" || jsEndsWith nm ".xlsx"
        || jsEndsWith nm ".xls" || jsEndsWith nm ".csv") = false →
      jsIncludes ty "image" = true →
      Dispatcher.renderEditor ty nm = Dispatcher.Strategy.scene) ∧
    (∀ ty nm, jsIncludes ty "pdf" = false →
      (jsIncludes ty "sheet" || jsIncludes ty "excel" || jsEndsWith nm ".xlsx"
        || jsEndsWith nm ".xls" || jsEndsWith nm ".csv") = false →
      jsIncludes ty "image" = false →
      Dispatcher.renderEditor ty nm = Dispatcher.Strategy.plainText) := by
  refine ⟨?_, ?_, ?_, ?_⟩ <;> intro ty nm <;> intros <;>
    simp_all [Dispatcher.renderEditor]

/-- C3 witness: the amended dispatch priority applied at concrete inputs of
each of the four kinds. -/
theorem C3_dispatch_priority_witness :
    Dispatcher.renderEditor "application/pdf" "doc.pdf" = Dispatcher.Strategy.paginatedDoc ∧
    Dispatcher.renderEditor "text/csv" "data.csv" = Dispatcher.Strategy.grid ∧
    Dispatcher.renderEditor "image/png" "photo.png" = Dispatcher.Strategy.scene ∧
    Dispatcher.renderEditor "text/plain" "notes.txt" = Dispatcher.Strategy.plainText :=
  ⟨C3_dispatch_priority.1 "application/pdf" "doc.pdf" (by decide),
   C3_dispatch_priority.2.1 "text/csv" "data.csv" (by decide) (by decide),
   C3_dispatch_priority.2.2.1 "image/png" "photo.png" (by decide) (by decide) (by decide),
   C3_dispatch_priority.2.2.2 "text/plain" "notes.txt" (by decide) (by decide) (by decide)⟩

/-- The concrete store session used to witness C1: one upload, then select
the uploaded document. -/
def c1Ops : List Store.AppOp :=
  [Store.AppOp.upload "a.txt" "text/plain" 3 "abc", Store.AppOp.select 0]

/-- C1: over every operation sequence on the Resource Store — uploads
(create), selects, deletes, replaces, viewer closes — (i) every live
DocumentRecord's handle is live (allocated and not released) and distinct
records hold distinct handles, so every live record has exactly one live
handle at all times; (ii) the handle-event trace is disciplined: every
allocation is of a fresh handle and every release strikes a currently live
one, so a handle's allocation always precedes its release — and in `replace`
the allocation event for the new handle is emitted before the release of the
old one, mirroring `URL.createObjectURL` running before the revoking map;
(iii) every released handle is released exactly once; (iv) the selection
snapshot always mirrors a record in the store, and when the replaced document
is the selected one the snapshot is updated in the same step to the freshly
allocated handle and new size. -/
theorem C1_resource_lifecycle (ops : List Store.AppOp) :
    (∀ f ∈ (Store.run ops).files,
      f.url ∈ Store.liveAfter [] (Store.run ops).events ∧
      f.url ∉ Store.releasedOf (Store.run ops).events) ∧
    ((Store.run ops).files.map (·.url)).Nodup ∧
    Store.WfFrom [] (Store.run ops).events ∧
    (Store.releasedOf (Store.run ops).events).Nodup ∧
    (∀ f, (Store.run ops).selected = some f → f ∈ (Store.run ops).files) ∧
    (∀ id sz f, (Store.run ops).selected = some f → (f.fid == id) = true →
      (Store.step (Store.run ops) (Store.AppOp.replace id sz)).selected =
        some { f with url := (Store.run ops).nextUrl, size := sz }) := by
  obtain ⟨A1, A2, A3, A4, A5, A6, A7, A8, A9, A10, A11⟩ := Store.run_inv ops
  refine ⟨?_, A4, A5, A9, A11, ?_⟩
  · intro f hf
    exact ⟨A3 f hf, A10 _ (A3 f hf)⟩
  · intro id sz f hsel hb
    simp only [Store.step]
    rw [hsel]
    dsimp only
    rw [if_pos hb]

/-- C1 witness: after uploading one document and selecting it, the record's
handle is live, and replacing the selected document updates the selection
snapshot to the freshly allocated handle and the new size. -/
theorem C1_resource_lifecycle_witness :
    (⟨0, "a.txt", "text/plain", 3, 0, "abc"⟩ : Store.FileRec).url ∈
      Store.liveAfter [] (Store.run c1Ops).events ∧
    (Store.step (Store.run c1Ops) (Store.AppOp.replace 0 5)).selected =
      some { (⟨0, "a.txt", "text/plain", 3, 0, "abc"⟩ : Store.FileRec) with
        url := (Store.run c1Ops).nextUrl, size := 5 } :=
  ⟨((C1_resource_lifecycle c1Ops).1 ⟨0, "a.txt", "text/plain", 3, 0, "abc"⟩ (by decide)).1,
   (C1_resource_lifecycle c1Ops).2.2.2.2.2 0 5 ⟨0, "a.txt", "text/plain", 3, 0, "abc"⟩
     (by decide) (by decide)⟩

/-- C10: in the plain-text fallback editor, for every store state, viewer
state and edited content, pressing Save (`handleSave`) only exits editing
mode; it never invokes the `onFileUpdate` callback, so the store — every
record's bytes/url, size and cached content — is unchanged and the edited
content is discarded rather than persisted. -/
theorem C10_text_save_discards_edits (app : Store.AppState) (v : Viewer.ViewerState)
    (c : String) :
    (Viewer.vstep (app, v) Viewer.VOp.saveText).1 = app ∧
    (Viewer.vstep (app, v) Viewer.VOp.saveText).2.isEditing = false ∧
    (Viewer.vstep (app, v) Viewer.VOp.saveText).2.editedContent = v.editedContent ∧
    (Viewer.vstep (Viewer.vstep (app, v) (Viewer.VOp.typeContent c))
      Viewer.VOp.saveText).1 = app ∧
    Viewer.contentOfSelected
      ((Viewer.vstep (Viewer.vstep (app, v) (Viewer.VOp.typeContent c))
        Viewer.VOp.saveText).1) = Viewer.contentOfSelected app :=
  ⟨rfl, rfl, rfl, rfl, rfl⟩

/-- C9: in every scene session, once the background image has loaded it is
object 0 (head of the z-order list), tagged as background and never
selectable; and `deleteSelected`, applied to any reachable state — including
after a select-all, since the selection invariantly contains only selectable
objects — leaves the background at object 0. -/
theorem C9_background_never_deleted (ops : List SceneModel.SOp) :
    ((SceneModel.sceneRun ops).bgLoaded = true →
      ∃ bg rest, (SceneModel.sceneRun ops).objects = bg :: rest ∧
        bg.isBackground = true ∧ bg.selectable = false) ∧
    ((SceneModel.sceneRun ops).bgLoaded = true →
      ∃ bg rest,
        (SceneModel.sceneStep (SceneModel.sceneRun ops)
            SceneModel.SOp.deleteSelected).objects = bg :: rest ∧
          bg.isBackground = true ∧ bg.selectable = false) := by
  have hinv := SceneModel.sceneRun_inv ops
  have hinv' := SceneModel.sceneStep_inv _ SceneModel.SOp.deleteSelected hinv
  refine ⟨hinv.2.2.1, fun hb => hinv'.2.2.1 ?_⟩
  exact hb

/-- C9 witness: load the background, add an object, select everything
selectable (a select-all attempt over ids 0 and 1), delete the selection —
the background is still object 0. -/
theorem C9_background_never_deleted_witness :
    (SceneModel.sceneRun [SceneModel.SOp.loadImage, SceneModel.SOp.addObject,
        SceneModel.SOp.setSelection [0, 1]]).bgLoaded = true ∧
    ∃ bg rest,
      (SceneModel.sceneStep
          (SceneModel.sceneRun [SceneModel.SOp.loadImage, SceneModel.SOp.addObject,
            SceneModel.SOp.setSelection [0, 1]])
          SceneModel.SOp.deleteSelected).objects = bg :: rest ∧
        bg.isBackground = true ∧ bg.selectable = false :=
  ⟨by decide,
   (C9_background_never_deleted [SceneModel.SOp.loadImage, SceneModel.SOp.addObject,
      SceneModel.SOp.setSelection [0, 1]]).2 (by decide)⟩

/-- C5: the code violates the claim.  In the stale-session scenario —
select A, start A's load, switch to B, let B's load settle, then let A's load
settle — the editor ends with B selected but showing A's parsed grid (header
`a`), not B's (header `b`): A's completion is applied unconditionally, because
`loadExcelData`/`loadPDF` compare no session identity at completion time.
This theorem evaluates the embedded code at that failing input. -/
theorem C5_stale_completion_applied :
    Stale.staleScenario.activeFile = 1 ∧
    Stale.staleScenario.pending = [] ∧
    Stale.staleScenario.grid =
      GridModel.loadExcelData
        (GridModel.loadExcelData ⟨[], []⟩ (some [["b"], ["2"]])) (some [["a"], ["1"]]) ∧
    GridModel.headerNames Stale.staleScenario.grid = ["a"] ∧
    GridModel.headerNames
      (GridModel.loadExcelData ⟨[], []⟩ (some [["b"], ["2"]])) = ["b"] := by
  refine ⟨by decide, by decide, by decide, by decide, by decide⟩

/-- C6: for every screen point `(sx, sy)` and every `renderScale` in
`[0.5, 3.0]`, converting to page space by `handleCanvasClick`'s inverse mapping
and painting it back with `renderAnnotations`' mapping
`screenPixel = (x·scale, pageHeightPx − y·scale)` reproduces the point exactly
(hence within any rounding tolerance). -/
theorem C6_coordinate_round_trip (scale h sx sy : ℚ)
    (h1 : 1/2 ≤ scale) (h2 : scale ≤ 3) :
    PdfModel.renderAnnotationPoint scale h
      (PdfModel.handleCanvasClickPoint scale h sx sy).1
      (PdfModel.handleCanvasClickPoint scale h sx sy).2 = (sx, sy) := by
  have hs : scale ≠ 0 := by intro h0; rw [h0] at h1; norm_num at h1
  unfold PdfModel.renderAnnotationPoint PdfModel.handleCanvasClickPoint
  simp only [Prod.mk.injEq]
  constructor
  · field_simp
  · field_simp

/-- C6 witness: the round trip at `scale = 3/2`, `h = 600`, screen point
`(10, 20)`. -/
theorem C6_coordinate_round_trip_witness :
    PdfModel.renderAnnotationPoint (3/2) 600
      (PdfModel.handleCanvasClickPoint (3/2) 600 10 20).1
      (PdfModel.handleCanvasClickPoint (3/2) 600 10 20).2 = (10, 20) :=
  C6_coordinate_round_trip (3/2) 600 10 20 (by norm_num) (by norm_num)
